import Mathlib

/-! # CategoryPage: URL state codec, fetch trigger and pagination

A shallow embedding of `src/app/route/CategoryPage/CategoryPage.component.js`
and the properties of it that the specification states.

* A JavaScript string is the list of its UTF-16 code units.
* The object holding the custom filters is the list of its own enumerable
  properties.
* A method that throws is a function into `Option`; `none` is the exception.
* The helpers of `Util/Url` are not among the sources: what `getQueryParam`
  returns is an input of the model, and the two helpers that rewrite the URL
  are modelled from the specification.
-/

namespace CategoryPage

/-! ## Strings -/

/-- A JavaScript string: the sequence of its UTF-16 code units. -/
abbrev JSString := List Nat

/-- The code units of an ASCII literal (used to write examples readably). -/
def ascii (s : String) : JSString := s.toList.map Char.toNat

/-- Code unit of `;`, separating filter segments. -/
def semicolon : Nat := 59

/-- Code unit of `:`, separating a filter name from its values. -/
def colon : Nat := 58

/-- Code unit of `,`, separating the values of one filter. -/
def comma : Nat := 44

/-- `String.prototype.split(sep)` for a separator of one code unit: the pieces
between the occurrences of `sep`; a string without `sep` (the empty string
included) gives one piece. -/
def split (sep : Nat) : JSString → List JSString
  | [] => [[]]
  | c :: cs =>
    if c = sep then [] :: split sep cs
    else
      match split sep cs with
      | [] => [[c]]
      | piece :: rest => (c :: piece) :: rest

/-- `Array.prototype.join(sep)` on an array of strings, for a separator of one
code unit. -/
def join (sep : Nat) : List JSString → JSString
  | [] => []
  | [x] => x
  | x :: y :: rest => x ++ sep :: join sep (y :: rest)

/-- The order `Array.prototype.sort()` uses without a comparator on strings:
lexicographic on code units; `strLe a b` is `a ≤ b`. -/
def strLe : JSString → JSString → Bool
  | [], _ => true
  | _ :: _, [] => false
  | a :: as, b :: bs => if a < b then true else if b < a then false else strLe as bs

/-- `Array.prototype.sort()` on an array of strings. The result of the
built-in is the one ascending arrangement of the elements (equal strings are
indistinguishable), computed here by insertion. -/
def sort (xs : List JSString) : List JSString :=
  xs.insertionSort (fun a b => strLe a b = true)

/-! ## Custom filters -/

/-- The object built by `getCustomFiltersFromUrl`: its own enumerable
properties, each a filter name with an array of values, in the order they were
created. (`Object.keys` lists integer-like names first; `updateFilter` sorts
the segments it makes from the keys, so that order does not show: see
`encode_perm`.) -/
abbrev Filters := List (JSString × List JSString)

/-- The property name `__proto__`. -/
def protoKey : JSString := [95, 95, 112, 114, 111, 116, 111, 95, 95]

/-- Own-property part of `obj[key] = value` on an object without that name
blocked: an existing property keeps its place and gets the value, a new one is
added last. -/
def assign : Filters → JSString → List JSString → Filters
  | [], key, value => [(key, value)]
  | (k, v) :: rest, key, value =>
    if k = key then (key, value) :: rest else (k, v) :: assign rest key value

/-- `obj[key] = value` on a plain object created by `{}`. Assigning to
`__proto__` runs the inherited setter and creates no own property (the array
becomes the prototype, which `Object.keys` does not enumerate). -/
def setProp (obj : Filters) (key : JSString) (value : List JSString) : Filters :=
  if key = protoKey then obj else assign obj key value

/-- One step of the `forEach` in `getCustomFiltersFromUrl`:
`const [key, value] = filter.split(':'); customFilters[key] = value.split(',')`.
When the split has one piece only, `value` is `undefined` and
`value.split` throws a `TypeError`. -/
def decodeSegment (customFilters : Filters) (filter : JSString) : Option Filters :=
  match split colon filter with
  | key :: value :: _ => some (setProp customFilters key (split comma value))
  | _ => none

/-- `getCustomFiltersFromUrl`, given what `getQueryParam('customFilters',
location)` returned: `none` for an absent parameter. An absent or empty string
is falsy and gives the empty object. -/
def getCustomFiltersFromUrl (customFiltersString : Option JSString) : Option Filters :=
  match customFiltersString with
  | none => some []
  | some [] => some []
  | some (c :: cs) => (split semicolon (c :: cs)).foldlM decodeSegment []

/-- The `reduce` of `updateFilter`: for each own key whose array is not empty,
the segment `name:v1,v2,...` with the values sorted. -/
def filterSegments (prevCustomFilters : Filters) : List JSString :=
  prevCustomFilters.foldl
    (fun accumulator p =>
      if p.2.length ≠ 0 then accumulator ++ [p.1 ++ colon :: join comma (sort p.2)]
      else accumulator)
    []

/-- The string `customFiltersString` of `updateFilter`:
`Object.keys(...).reduce(...).sort().join(';')`. -/
def customFiltersString (prevCustomFilters : Filters) : JSString :=
  join semicolon (sort (filterSegments prevCustomFilters))

/-- The two `slice` lines of `updateFilter`: both tests look at the unstripped
string; a trailing `;` is cut first, then a leading one. -/
def stripSemicolons (s : JSString) : JSString :=
  let hasTrailingSemicolon := s.getLast? = some semicolon
  let hasLeadingSemicolon := s.head? = some semicolon
  let customFilters := if hasTrailingSemicolon then s.dropLast else s
  if hasLeadingSemicolon then customFilters.drop 1 else customFilters

/-- The serialization of `updateFilter` (lines 278-297): the value it passes to
`setQueryParams` as `customFilters`, for the mapping `prevCustomFilters`. -/
def encode (prevCustomFilters : Filters) : JSString :=
  stripSemicolons (customFiltersString prevCustomFilters)

/-- `updateFilter(filterName, filterArray)`: the `customFilters` value written
to the URL, or `none` when reading the previous filters throws. -/
def updateFilter (customFiltersParam : Option JSString) (filterName : JSString)
    (filterArray : List JSString) : Option JSString :=
  (getCustomFiltersFromUrl customFiltersParam).map
    (fun prevCustomFilters => encode (setProp prevCustomFilters filterName filterArray))

/-! ## Numbers -/

/-- A JavaScript number as far as this component computes with them: a
finite number whose value is an integer, `NaN`, or an infinity. (The sign of a
zero is not modelled.) -/
inductive JSNumber where
  | int (value : Int)
  | nan
  | infinity (negative : Bool)
  deriving DecidableEq

/-- How many low bits of `m` a double cannot hold: the least `shift` with
`m / 2 ^ shift < 2 ^ 53`, found by halving (`fuel` bounds the halvings). -/
def excessBits : Nat → Nat → Nat
  | 0, _ => 0
  | fuel + 1, m => if m < 2 ^ 53 then 0 else excessBits fuel (m / 2) + 1

/-- The double nearest to the natural number `m` (ties to the even
significand), as a natural number; `none` when that is past the greatest
finite double `(2 ^ 53 - 1) * 2 ^ 971`, where the number is `Infinity`. -/
def toDouble (m : Nat) : Option Nat :=
  let shift := excessBits m m
  let quotient := m / 2 ^ shift
  let remainder := m % 2 ^ shift
  let half := 2 ^ (shift - 1)
  let rounded :=
    if shift ≠ 0 ∧ (half < remainder ∨ (remainder = half ∧ quotient % 2 = 1)) then quotient + 1
    else quotient
  if 971 < shift ∨ (shift = 971 ∧ rounded = 2 ^ 53) then none else some (rounded * 2 ^ shift)

/-- White space that `parseInt` skips at the start of its argument
(`WhiteSpace` and `LineTerminator` code units). -/
def isWhiteSpace (c : Nat) : Bool :=
  c = 9 || c = 10 || c = 11 || c = 12 || c = 13 || c = 32 || c = 160 || c = 5760
    || (8192 ≤ c && c ≤ 8202) || c = 8232 || c = 8233 || c = 8239 || c = 8287
    || c = 12288 || c = 65279

/-- Whether a code unit is one of `0` to `9`. -/
def isDigit (c : Nat) : Bool := 48 ≤ c && c ≤ 57

/-- The number a run of decimal digit code units denotes. -/
def digitsValue (digits : List Nat) : Nat :=
  digits.foldl (fun acc c => 10 * acc + (c - 48)) 0

/-- `parseInt(s, 10)` on a string: leading white space is skipped, one sign
is read, then the longest run of decimal digits; without a digit the result
is `NaN`, otherwise the number value of the integer read, which is the double
nearest to it. -/
def parseInt (s : JSString) : JSNumber :=
  let trimmed := s.dropWhile isWhiteSpace
  let negative := decide (trimmed.head? = some 45)
  let unsigned := if trimmed.head? = some 45 ∨ trimmed.head? = some 43 then trimmed.drop 1 else trimmed
  let digits := unsigned.takeWhile isDigit
  if digits = [] then JSNumber.nan
  else
    match toDouble (digitsValue digits) with
    | some value => JSNumber.int (if negative then -Int.ofNat value else Int.ofNat value)
    | none => JSNumber.infinity negative

/-- Truthiness of what `getQueryParam` returned for a textual parameter: an
absent parameter and the empty string are falsy. -/
def truthy : Option JSString → Bool
  | none => false
  | some [] => false
  | some (_ :: _) => true

/-- The expression `param || fallback` for a textual parameter. -/
def orElse (param : Option JSString) (fallback : JSString) : JSString :=
  match param with
  | some (c :: cs) => c :: cs
  | _ => fallback

/-! ## Component state, props and URL -/

/-- The value `{ min, max }` of a price range. -/
structure PriceRange where
  min : JSNumber
  max : JSNumber
  deriving DecidableEq

/-- The component state, `this.state`. -/
structure State where
  sortKey : JSString
  sortDirection : JSString
  defaultPriceRange : PriceRange
  minPriceRange : Int
  maxPriceRange : Int
  previousPage : Nat
  pageSize : Nat
  deriving DecidableEq

/-- The state the constructor sets (lines 41-49). -/
def constructorState : State where
  sortKey := ascii "name"
  sortDirection := ascii "ASC"
  defaultPriceRange := { min := JSNumber.int 0, max := JSNumber.int 300 }
  minPriceRange := 0
  maxPriceRange := 300
  previousPage := 0
  pageSize := 12

/-- The query parameters `getQueryParam(name, location)` reads, `none` for an
absent one. The `page` parameter is a decimal numeral and is carried as the
number it denotes (the comparison in `increasePage` and `parseInt` both read
that number); the other parameters are carried as text. `other` holds any
further parameters of the URL. -/
structure Query where
  page : Option Nat
  sortKey : Option JSString
  sortDirection : Option JSString
  priceMin : Option JSString
  priceMax : Option JSString
  customFilters : Option JSString
  other : List (JSString × JSString)
  deriving DecidableEq

/-- The router location: `pathname` and `search` are the raw strings the
component compares, `query` is what `getQueryParam` reads out of `search`. -/
structure Location where
  pathname : JSString
  search : JSString
  query : Query
  deriving DecidableEq

/-- The `category` prop as far as the component looks at it: its `id`
(`none` when `undefined`) and the number of its own properties. -/
structure Category where
  id : Option Int
  entries : Nat
  deriving DecidableEq

/-- The props the modelled methods read. `items` is `items.length`;
`urlPath` is what `getUrlParam(match, location)` returns. -/
structure Props where
  location : Location
  category : Category
  categoryIds : Int
  items : Nat
  totalItems : Nat
  isLoading : Bool
  urlPath : JSString
  deriving DecidableEq

/-! ## Price range -/

/-- `getPriceRangeFromUrl` (lines 101-112). -/
def getPriceRangeFromUrl (st : State) (location : Location) : PriceRange :=
  let priceMinFromUrl := location.query.priceMin
  let priceMaxFromUrl := location.query.priceMax
  { min := if truthy priceMinFromUrl then parseInt (priceMinFromUrl.getD []) else st.defaultPriceRange.min
    max := if truthy priceMaxFromUrl then parseInt (priceMaxFromUrl.getD []) else st.defaultPriceRange.max }

/-! ## Fetch trigger -/

/-- `urlHasChanged(location, prevProps)` (lines 155-160). -/
def urlHasChanged (location : Location) (prevProps : Props) : Bool :=
  let pathnameHasChanged := location.pathname ≠ prevProps.location.pathname
  let searcQueryHasChanged := location.search ≠ prevProps.location.search
  pathnameHasChanged || searcQueryHasChanged

/-- The `options` object that `requestCategory` sends. -/
structure Options where
  categoryUrlPath : Option JSString
  currentPage : Nat
  previousPage : Nat
  pageSize : Nat
  priceRange : PriceRange
  customFilters : Filters
  categoryIds : Int
  sortKey : JSString
  sortDirection : JSString
  productsLoaded : Nat
  getConfigurableData : Bool
  isCategoryLoaded : Bool
  deriving DecidableEq

/-- The object `stateUpdate` of `requestCategory`: `previousPage` always, a
sort field only when it was set. -/
structure StateUpdate where
  previousPage : Nat
  sortKey : Option JSString
  sortDirection : Option JSString
  deriving DecidableEq

/-- `this.setState(stateUpdate)`: the fields of the update replace those of
the state, the others stay. -/
def setState (st : State) (stateUpdate : StateUpdate) : State :=
  { st with
    previousPage := stateUpdate.previousPage
    sortKey := stateUpdate.sortKey.getD st.sortKey
    sortDirection := stateUpdate.sortDirection.getD st.sortDirection }

/-- The `stateUpdate` object built at lines 204-214. -/
def requestStateUpdate (location : Location) : StateUpdate :=
  let currentPage := location.query.page.getD 1
  let querySortKey := location.query.sortKey
  let querySortDirection := location.query.sortDirection
  { previousPage := currentPage
    sortKey := if truthy querySortKey then querySortKey else none
    sortDirection := if truthy querySortDirection then querySortDirection else none }

/-- `requestCategory()` (lines 166-219): the state after `setState` and the
options passed to the `requestCategory` prop; `none` when
`getCustomFiltersFromUrl` throws, which happens before either. -/
def requestCategory (st : State) (props : Props) : Option (State × Options) :=
  let categoryUrlPath := if props.categoryIds = 0 then some props.urlPath else none
  let currentPage := props.location.query.page.getD 1
  let priceRange := getPriceRangeFromUrl st props.location
  match getCustomFiltersFromUrl props.location.query.customFilters with
  | none => none
  | some customFilters =>
    let querySortKey := props.location.query.sortKey
    let querySortDirection := props.location.query.sortDirection
    let options : Options :=
      { categoryUrlPath := categoryUrlPath
        currentPage := currentPage
        previousPage := st.previousPage
        pageSize := st.pageSize
        priceRange := priceRange
        customFilters := customFilters
        categoryIds := props.categoryIds
        sortKey := orElse querySortKey st.sortKey
        sortDirection := orElse querySortDirection st.sortDirection
        productsLoaded := props.items
        getConfigurableData := true
        isCategoryLoaded := decide (props.category.entries ≠ 0) }
    some (setState st (requestStateUpdate props.location), options)

/-- What one run of `componentDidUpdate` does: whether it invoked
`onCategoryUpdate`, whether it invoked `requestCategory`, the options that
reached the `requestCategory` prop (the category fetch; `none` when none was
dispatched), and the state afterwards. -/
structure Update where
  categoryUpdated : Bool
  requested : Bool
  fetch : Option Options
  state : State
  deriving DecidableEq

/-- `componentDidUpdate(prevProps)` (lines 69-78), run in state `st`. When
`this.requestCategory()` throws, nothing was dispatched and the state is as
before. -/
def componentDidUpdate (st : State) (props prevProps : Props) : Update :=
  let categoryUpdated := decide (props.category.id ≠ prevProps.category.id)
  if urlHasChanged props.location prevProps || decide (props.categoryIds ≠ prevProps.categoryIds) then
    match requestCategory st props with
    | some (st', options) =>
      { categoryUpdated := categoryUpdated, requested := true, fetch := some options, state := st' }
    | none =>
      { categoryUpdated := categoryUpdated, requested := true, fetch := none, state := st }
  else
    { categoryUpdated := categoryUpdated, requested := false, fetch := none, state := st }

/-! ## Pagination and filter reset -/

/-- `increasePage()` (lines 309-324): the `page` it passes to
`setQueryParams`, or `none` when it writes nothing. `Math.floor` of the
quotient is the integer quotient (`pageSize` is 12 in every state the
component sets). -/
def increasePage (st : State) (props : Props) : Option Nat :=
  let pageFromUrl := props.location.query.page.getD 1
  let totalPages := props.totalItems / st.pageSize
  let currentPage := if totalPages < pageFromUrl then totalPages else pageFromUrl
  if !props.isLoading then some (currentPage + 1) else none

/-- Modelled from the spec: `clearQueriesFromUrl(history)` of `Util/Url`, which
is not among the sources; it "removes all query parameters". -/
def clearQueriesFromUrl (_history : Query) : Query where
  page := none
  sortKey := none
  sortDirection := none
  priceMin := none
  priceMax := none
  customFilters := none
  other := []

/-- The key/value object passed to `setQueryParams`; `none` is a key the
object does not have. -/
structure QueryParams where
  page : Option Nat := none
  sortKey : Option JSString := none
  sortDirection : Option JSString := none
  priceMin : Option JSString := none
  priceMax : Option JSString := none
  customFilters : Option JSString := none
  deriving DecidableEq

/-- Modelled from the spec: `setQueryParams(keyValueObject, location, history)`
of `Util/Url`, which is not among the sources; it "re-writes" the given
parameters into the query of `history` and leaves the others. -/
def setQueryParams (keyValueObject : QueryParams) (_location : Location) (history : Query) : Query where
  page := keyValueObject.page.orElse (fun _ => history.page)
  sortKey := keyValueObject.sortKey.orElse (fun _ => history.sortKey)
  sortDirection := keyValueObject.sortDirection.orElse (fun _ => history.sortDirection)
  priceMin := keyValueObject.priceMin.orElse (fun _ => history.priceMin)
  priceMax := keyValueObject.priceMax.orElse (fun _ => history.priceMax)
  customFilters := keyValueObject.customFilters.orElse (fun _ => history.customFilters)
  other := history.other

/-- `clearFilters(location, history)` (lines 330-335): the query of the URL
after the call. -/
def clearFilters (st : State) (location : Location) (history : Query) : Query :=
  let page := location.query.page.getD 1
  setQueryParams
    { sortKey := some st.sortKey, sortDirection := some st.sortDirection, page := some page }
    location (clearQueriesFromUrl history)

/-! ## Vocabulary of the statements -/

/-- Text of an integer: a minus sign when `negative`, then the decimal digits
(values `0` to `9`), most significant first. -/
def integerString (negative : Bool) (digits : List Nat) : JSString :=
  (if negative then [45] else []) ++ digits.map (· + 48)

/-- The decimal text of an integer as `Number.prototype.toString` writes it: a
minus sign for a negative one, then the digits without leading zeros. -/
def decimal (n : Int) : JSString :=
  (if n < 0 then [45] else []) ++
    (if n.natAbs = 0 then [48] else (Nat.digits 10 n.natAbs).reverse.map (· + 48))

/-- The segment `name:v1,v2,...` that `updateFilter` builds for one filter. -/
def segmentOf (p : JSString × List JSString) : JSString :=
  p.1 ++ colon :: join comma (sort p.2)

/-- A filter entry free of the codec's delimiters: the name is not `__proto__`
and holds no `;` or `:`, the array is not empty, and no value holds `;`, `:`
or `,`. -/
def CleanEntry (p : JSString × List JSString) : Prop :=
  p.1 ≠ protoKey ∧ semicolon ∉ p.1 ∧ colon ∉ p.1 ∧ p.2 ≠ [] ∧
    ∀ v ∈ p.2, semicolon ∉ v ∧ colon ∉ v ∧ comma ∉ v

/-- A mapping (names pairwise different) whose entries are all free of the
codec's delimiters. -/
def WellFormed (m : Filters) : Prop :=
  (m.map Prod.fst).Nodup ∧ ∀ p ∈ m, CleanEntry p

/-- The entries of `m` in the order of their segments. -/
def bySegment (m : Filters) : Filters :=
  m.insertionSort (fun p q => strLe (segmentOf p) (segmentOf q) = true)

/-- The mapping that decoding the serialization of `m` gives: the entries in
the order of their segments, each with its values sorted. -/
def canonical (m : Filters) : Filters :=
  (bySegment m).map (fun p => (p.1, sort p.2))

/-- A mapping as the round-trip property takes it: filter names pairwise
different and not empty, each with a non-empty set of values. -/
def IsFilterMapping (m : Filters) : Prop :=
  (m.map Prod.fst).Nodup ∧ ∀ p ∈ m, p.1 ≠ [] ∧ p.2 ≠ [] ∧ p.2.Nodup

/-- The round trip at `m`: decoding the serialization of `m` succeeds and
gives a mapping with exactly the names of `m` and, for each name, exactly the
values of `m` (as a set). -/
def RoundTrips (m : Filters) : Prop :=
  ∃ m', getCustomFiltersFromUrl (some (encode m)) = some m' ∧
    (m'.map Prod.fst).Nodup ∧
    (∀ k, k ∈ m'.map Prod.fst ↔ k ∈ m.map Prod.fst) ∧
    (∀ k v, (∃ vs', (k, vs') ∈ m' ∧ v ∈ vs') ↔ (∃ vs, (k, vs) ∈ m ∧ v ∈ vs))

/-- No filter name and no value of `m` holds a `;`. -/
def NoSemicolons (m : Filters) : Prop :=
  ∀ p ∈ m, semicolon ∉ p.1 ∧ ∀ v ∈ p.2, semicolon ∉ v

/-- The canonical form of a `customFilters` string: it does not start with
`;`, does not end with `;`, and its `;`-separated segments are in ascending
order. -/
def Canonical (s : JSString) : Prop :=
  s.head? ≠ some semicolon ∧ s.getLast? ≠ some semicolon ∧
    (split semicolon s).Sorted (fun a b => strLe a b = true)

/-- Splitting once at the first `sep`: the text before it and the text after
it; `none` when `sep` does not occur. -/
def splitFirst (sep : Nat) : JSString → Option (JSString × JSString)
  | [] => none
  | c :: cs =>
    if c = sep then some ([], cs)
    else (splitFirst sep cs).map (fun p => (c :: p.1, p.2))

/-- The entries the decoding rule reads off a `customFilters` string, as the
specification words it: split on `;`; an empty segment contributes nothing; a
non-empty segment is split once at its first `:` into a name and a value-list,
and the value-list is split on `,`. For a non-empty segment without `:` the
rule gives no result (`none`). -/
def ruleEntries (s : JSString) : Option (List (JSString × List JSString)) :=
  (split semicolon s).foldlM
    (fun entries segment =>
      if segment = [] then some entries
      else (splitFirst colon segment).map (fun p => entries ++ [(p.1, split comma p.2)]))
    []

/-- The object that assigning the entries in order builds. -/
def buildFilters (entries : List (JSString × List JSString)) : Filters :=
  entries.foldl (fun obj e => setProp obj e.1 e.2) []

/-- The result of decoding by the rule of the specification. -/
def decodeByRule (s : JSString) : Option Filters :=
  (ruleEntries s).map buildFilters

/-- What the code reads off one segment that holds a `:`: the name is the
text before the first `:`, the value-list the text between the first `:` and
the second (or the end of the segment). -/
def codeEntry (segment : JSString) : JSString × List JSString :=
  (segment.takeWhile (· != colon),
    split comma (((segment.dropWhile (· != colon)).drop 1).takeWhile (· != colon)))

/-- What `requestCategory` is to do with sort and page state, at one state and
props: it sends options and updates the state; the options carry the URL's
`sortKey` (resp. `sortDirection`) when the URL has a non-empty one and the
state's otherwise, and the state's `previousPage`; the new state has
`previousPage` set to the URL page (1 if absent), a sort field set to the URL's
value exactly when the URL has one, and every other field unchanged. -/
def SendsSortAndPage (st : State) (props : Props) : Prop :=
  ∃ st' options, requestCategory st props = some (st', options) ∧
    (∀ s, props.location.query.sortKey = some s → s ≠ [] →
      options.sortKey = s ∧ st'.sortKey = s) ∧
    (props.location.query.sortKey = none ∨ props.location.query.sortKey = some [] →
      options.sortKey = st.sortKey ∧ st'.sortKey = st.sortKey) ∧
    (∀ s, props.location.query.sortDirection = some s → s ≠ [] →
      options.sortDirection = s ∧ st'.sortDirection = s) ∧
    (props.location.query.sortDirection = none ∨ props.location.query.sortDirection = some [] →
      options.sortDirection = st.sortDirection ∧ st'.sortDirection = st.sortDirection) ∧
    options.previousPage = st.previousPage ∧
    st'.previousPage = props.location.query.page.getD 1 ∧
    st'.defaultPriceRange = st.defaultPriceRange ∧
    st'.minPriceRange = st.minPriceRange ∧
    st'.maxPriceRange = st.maxPriceRange ∧
    st'.pageSize = st.pageSize

/-! ## Sample inputs -/

/-- A location with `priceMin=25` and no `priceMax`. -/
def priceLocation : Location where
  pathname := ascii "/women"
  search := ascii "?priceMin=25"
  query :=
    { page := none, sortKey := none, sortDirection := none,
      priceMin := some (ascii "25"), priceMax := none, customFilters := none, other := [] }

/-- A location with `priceMin=9007199254740993`, which is `2 ^ 53 + 1`. -/
def largePriceLocation : Location where
  pathname := ascii "/women"
  search := ascii "?priceMin=9007199254740993"
  query :=
    { page := none, sortKey := none, sortDirection := none,
      priceMin := some (ascii "9007199254740993"), priceMax := none, customFilters := none,
      other := [] }

/-- Props of a listing with `totalItems` items, shown at URL page `page`. -/
def listingProps (totalItems : Nat) (page : Option Nat) (isLoading : Bool) : Props where
  location :=
    { pathname := ascii "/women"
      search := []
      query :=
        { page := page, sortKey := none, sortDirection := none,
          priceMin := none, priceMax := none, customFilters := none, other := [] } }
  category := { id := some 3, entries := 5 }
  categoryIds := 0
  items := 12
  totalItems := totalItems
  isLoading := isLoading
  urlPath := ascii "women"

/-- The location of the URL
`?customFilters=color:red,blue;size:m&page=3&sortKey=price&sortDirection=DESC`. -/
def filteredLocation : Location where
  pathname := ascii "/women"
  search := ascii "?customFilters=color:red,blue;size:m&page=3&sortKey=price&sortDirection=DESC"
  query :=
    { page := some 3
      sortKey := some (ascii "price")
      sortDirection := some (ascii "DESC")
      priceMin := none
      priceMax := none
      customFilters := some (ascii "color:red,blue;size:m")
      other := [] }

/-- Props whose URL is `?customFilters=abc`: a filter segment without `:`. -/
def malformedProps : Props :=
  { listingProps 25 none false with
    location :=
      { pathname := ascii "/women"
        search := ascii "?customFilters=abc"
        query :=
          { page := none, sortKey := none, sortDirection := none, priceMin := none,
            priceMax := none, customFilters := some (ascii "abc"), other := [] } } }

/-- The mapping `{size: ["m"], color: ["red", "blue"]}`. -/
def sampleFilters : Filters :=
  [(ascii "size", [ascii "m"]), (ascii "color", [ascii "red", ascii "blue"])]

/-! ## Lemmas on numbers -/

theorem foldl_digits (ds : List Nat) (a : Nat) :
    (ds.map (· + 48)).foldl (fun acc c => 10 * acc + (c - 48)) a
      = a * 10 ^ ds.length + Nat.ofDigits 10 ds.reverse := by
  induction ds generalizing a with
  | nil => simp
  | cons d ds ih =>
    simp only [List.map_cons, List.foldl_cons, List.length_cons, List.reverse_cons]
    rw [ih, Nat.ofDigits_append, Nat.ofDigits_singleton]
    simp only [List.length_reverse, Nat.add_sub_cancel]
    ring

theorem digitsValue_map (ds : List Nat) :
    digitsValue (ds.map (· + 48)) = Nat.ofDigits 10 ds.reverse := by
  unfold digitsValue
  rw [foldl_digits]
  simp

theorem takeWhile_isDigit_map (ds : List Nat) (h : ∀ d ∈ ds, d < 10) :
    (ds.map (· + 48)).takeWhile isDigit = ds.map (· + 48) := by
  rw [List.takeWhile_eq_self_iff]
  intro c hc
  obtain ⟨d, hd, rfl⟩ := List.mem_map.1 hc
  have := h d hd
  simp only [isDigit, Bool.and_eq_true, decide_eq_true_eq]
  omega

theorem isWhiteSpace_digit (d : Nat) (h : d < 10) : isWhiteSpace (d + 48) = false := by
  interval_cases d <;> rfl

theorem parseInt_integerString (negative : Bool) (ds : List Nat) (hne : ds ≠ [])
    (hds : ∀ d ∈ ds, d < 10) :
    parseInt (integerString negative ds) =
      match toDouble (Nat.ofDigits 10 ds.reverse) with
      | some value => JSNumber.int (if negative then -Int.ofNat value else Int.ofNat value)
      | none => JSNumber.infinity negative := by
  obtain ⟨d, rest, rfl⟩ := List.exists_cons_of_ne_nil hne
  have hd : d < 10 := hds d (List.mem_cons_self _ _)
  have htw := takeWhile_isDigit_map (d :: rest) hds
  have hval := digitsValue_map (d :: rest)
  have hws := isWhiteSpace_digit d hd
  have h45 : d + 48 ≠ 45 := by omega
  have h43 : d + 48 ≠ 43 := by omega
  have hnil : (d :: rest).map (· + 48) ≠ [] := by simp
  cases negative
  · have hstr : integerString false (d :: rest) = (d :: rest).map (· + 48) := by
      simp [integerString]
    have hdrop : ((d :: rest).map (· + 48)).dropWhile isWhiteSpace = (d :: rest).map (· + 48) := by
      simp [List.dropWhile, hws]
    have hhead : ((d :: rest).map (· + 48)).head? = some (d + 48) := by simp
    simp only [parseInt, hstr, hdrop, hhead, Option.some.injEq, h45, h43, or_self, if_false,
      htw, hval, hnil, decide_False]
  · have hstr : integerString true (d :: rest) = 45 :: (d :: rest).map (· + 48) := by
      simp [integerString]
    have hdrop : (45 :: (d :: rest).map (· + 48)).dropWhile isWhiteSpace
        = 45 :: (d :: rest).map (· + 48) := by
      have : isWhiteSpace 45 = false := rfl
      simp [List.dropWhile, this]
    simp only [parseInt, hstr, hdrop, List.head?_cons, true_or, if_true, List.drop_succ_cons,
      List.drop_zero, htw, hval, hnil, if_false, decide_True]

theorem excessBits_of_lt (fuel m : Nat) (h : m < 2 ^ 53) : excessBits fuel m = 0 := by
  cases fuel with
  | zero => rfl
  | succ k => simp only [excessBits, h, if_true]

/-- A natural number up to `2 ^ 53` is a double. -/
theorem toDouble_of_le (m : Nat) (h : m ≤ 2 ^ 53) : toDouble m = some m := by
  rcases Nat.lt_or_ge m (2 ^ 53) with hlt | hge
  · simp [toDouble, excessBits_of_lt m m hlt]
  · have : m = 2 ^ 53 := le_antisymm h hge
    subst this
    decide

/-- `parseInt` reads the decimal text of an integer of magnitude at most
`2 ^ 53` back as that integer. -/
theorem parseInt_decimal (n : Int) (hn : n.natAbs ≤ 2 ^ 53) :
    parseInt (decimal n) = JSNumber.int n := by
  by_cases h0 : n.natAbs = 0
  · have hn0 : n = 0 := Int.natAbs_eq_zero.1 h0
    subst hn0
    decide
  · have hne : (Nat.digits 10 n.natAbs).reverse ≠ [] := by
      simpa using (Nat.digits_ne_nil_iff_ne_zero.2 h0)
    have hlt : ∀ d ∈ (Nat.digits 10 n.natAbs).reverse, d < 10 := by
      intro d hd
      exact Nat.digits_lt_base (by norm_num) (List.mem_reverse.1 hd)
    have hstr : decimal n = integerString (decide (n < 0)) (Nat.digits 10 n.natAbs).reverse := by
      unfold decimal integerString
      by_cases hneg : n < 0 <;> simp [hneg, h0]
    rw [hstr, parseInt_integerString _ _ hne hlt, List.reverse_reverse, Nat.ofDigits_digits,
      toDouble_of_le _ hn]
    by_cases hneg : n < 0
    · simp only [hneg, decide_True, if_true, Int.ofNat_eq_coe, JSNumber.int.injEq]
      omega
    · simp only [hneg, decide_False, Bool.false_eq_true, if_false, Int.ofNat_eq_coe,
        JSNumber.int.injEq]
      omega

theorem truthy_decimal (n : Int) : truthy (some (decimal n)) = true := by
  unfold decimal
  by_cases hneg : n < 0
  · simp [hneg, truthy]
  · by_cases h0 : n.natAbs = 0
    · simp [hneg, h0, truthy]
    · have hne : (Nat.digits 10 n.natAbs).reverse ≠ [] := by
        simpa using (Nat.digits_ne_nil_iff_ne_zero.2 h0)
      obtain ⟨d, rest, hd⟩ := List.exists_cons_of_ne_nil hne
      simp [hneg, h0, hd, truthy]

/-! ## Lemmas on `split` and `join` -/

theorem split_ne_nil (sep : Nat) (s : JSString) : split sep s ≠ [] := by
  induction s with
  | nil => simp [split]
  | cons c cs ih =>
    simp only [split]
    split_ifs
    · simp
    · cases h : split sep cs with
      | nil => simp
      | cons p r => simp

theorem split_of_not_mem (sep : Nat) (p : JSString) (h : sep ∉ p) : split sep p = [p] := by
  induction p with
  | nil => rfl
  | cons c cs ih =>
    have hc : c ≠ sep := fun e => h (e ▸ List.mem_cons_self _ _)
    have hcs : sep ∉ cs := fun e => h (List.mem_cons_of_mem _ e)
    simp [split, hc, ih hcs]

theorem split_append_sep (sep : Nat) (p rest : JSString) (h : sep ∉ p) :
    split sep (p ++ sep :: rest) = p :: split sep rest := by
  induction p with
  | nil => simp [split]
  | cons c cs ih =>
    have hc : c ≠ sep := fun e => h (e ▸ List.mem_cons_self _ _)
    have hcs : sep ∉ cs := fun e => h (List.mem_cons_of_mem _ e)
    simp [split, hc, ih hcs]

theorem split_join (sep : Nat) (pieces : List JSString) (hne : pieces ≠ [])
    (h : ∀ p ∈ pieces, sep ∉ p) : split sep (join sep pieces) = pieces := by
  induction pieces with
  | nil => exact absurd rfl hne
  | cons x rest ih =>
    cases rest with
    | nil => simpa [join] using split_of_not_mem sep x (h x (List.mem_cons_self _ _))
    | cons y rest =>
      have hx := h x (List.mem_cons_self _ _)
      have := ih (by simp) (fun p hp => h p (List.mem_cons_of_mem _ hp))
      simp only [join]
      rw [split_append_sep sep x _ hx, this]

theorem mem_split (sep : Nat) (s : JSString) :
    ∀ p ∈ split sep s, sep ∉ p ∧ ∀ c ∈ p, c ∈ s := by
  induction s with
  | nil => simp [split]
  | cons c cs ih =>
    intro p hp
    simp only [split] at hp
    split_ifs at hp with hc
    · rcases List.mem_cons.1 hp with rfl | hp
      · simp
      · exact ⟨(ih p hp).1, fun x hx => List.mem_cons_of_mem _ ((ih p hp).2 x hx)⟩
    · cases hs : split sep cs with
      | nil => exact absurd hs (split_ne_nil sep cs)
      | cons q r =>
        rw [hs] at hp ih
        simp only at hp
        rcases List.mem_cons.1 hp with rfl | hp
        · have hq := ih q (List.mem_cons_self _ _)
          refine ⟨?_, ?_⟩
          · intro hmem
            rcases List.mem_cons.1 hmem with e | e
            · exact hc e.symm
            · exact hq.1 e
          · intro x hx
            rcases List.mem_cons.1 hx with rfl | hx
            · exact List.mem_cons_self _ _
            · exact List.mem_cons_of_mem _ (hq.2 x hx)
        · have hq := ih p (List.mem_cons_of_mem _ hp)
          exact ⟨hq.1, fun x hx => List.mem_cons_of_mem _ (hq.2 x hx)⟩

theorem mem_join (sep : Nat) (pieces : List JSString) :
    ∀ c ∈ join sep pieces, c = sep ∨ ∃ p ∈ pieces, c ∈ p := by
  induction pieces with
  | nil => simp [join]
  | cons x rest ih =>
    cases rest with
    | nil =>
      intro c hc
      exact Or.inr ⟨x, List.mem_cons_self _ _, by simpa [join] using hc⟩
    | cons y rest =>
      intro c hc
      simp only [join, List.mem_append, List.mem_cons] at hc
      rcases hc with hc | rfl | hc
      · exact Or.inr ⟨x, List.mem_cons_self _ _, hc⟩
      · exact Or.inl rfl
      · rcases ih c hc with h | ⟨p, hp, hcp⟩
        · exact Or.inl h
        · exact Or.inr ⟨p, List.mem_cons_of_mem _ hp, hcp⟩

theorem head?_join (sep : Nat) (x : JSString) (rest : List JSString) (hx : x ≠ []) :
    (join sep (x :: rest)).head? = x.head? := by
  obtain ⟨c, cs, rfl⟩ := List.exists_cons_of_ne_nil hx
  cases rest <;> simp [join]

theorem getLast?_join (sep : Nat) (pieces : List JSString) (hne : pieces ≠ [])
    (h : ∀ p ∈ pieces, p ≠ []) :
    ∃ p ∈ pieces, (join sep pieces).getLast? = p.getLast? := by
  induction pieces with
  | nil => exact absurd rfl hne
  | cons x rest ih =>
    cases rest with
    | nil => exact ⟨x, List.mem_cons_self _ _, by simp [join]⟩
    | cons y rest =>
      obtain ⟨p, hp, hlast⟩ := ih (by simp) (fun p hp => h p (List.mem_cons_of_mem _ hp))
      refine ⟨p, List.mem_cons_of_mem _ hp, ?_⟩
      have hj : join sep (y :: rest) ≠ [] := by
        have hy := h y (by simp)
        obtain ⟨c, cs, rfl⟩ := List.exists_cons_of_ne_nil hy
        cases rest <;> simp [join]
      simp only [join]
      rw [List.getLast?_append, ← hlast]
      obtain ⟨j, js, hJ⟩ := List.exists_cons_of_ne_nil hj
      rw [hJ, List.getLast?_cons_cons]
      cases hjl : (j :: js).getLast? with
      | none => simp at hjl
      | some v => simp

/-! ## Lemmas on the sort order -/

theorem strLe_refl (a : JSString) : strLe a a = true := by
  induction a with
  | nil => rfl
  | cons x xs ih => simp [strLe, ih]

theorem strLe_total (a b : JSString) : strLe a b = true ∨ strLe b a = true := by
  induction a generalizing b with
  | nil => exact Or.inl rfl
  | cons x xs ih =>
    cases b with
    | nil => exact Or.inr rfl
    | cons y ys =>
      simp only [strLe]
      rcases Nat.lt_trichotomy x y with h | h | h
      · simp [h]
      · subst h
        simpa using ih ys
      · have h' : ¬ x < y := by omega
        simp [h, h']

theorem strLe_antisymm (a b : JSString) (h1 : strLe a b = true) (h2 : strLe b a = true) :
    a = b := by
  induction a generalizing b with
  | nil =>
    cases b with
    | nil => rfl
    | cons y ys => simp [strLe] at h2
  | cons x xs ih =>
    cases b with
    | nil => simp [strLe] at h1
    | cons y ys =>
      simp only [strLe] at h1 h2
      rcases Nat.lt_trichotomy x y with h | h | h
      · have h' : ¬ y < x := by omega
        simp [h, h'] at h2
      · subst h
        simp only [Nat.lt_irrefl, if_false] at h1 h2
        rw [ih ys h1 h2]
      · have h' : ¬ x < y := by omega
        simp [h, h'] at h1

theorem strLe_trans (a b c : JSString) (h1 : strLe a b = true) (h2 : strLe b c = true) :
    strLe a c = true := by
  induction a generalizing b c with
  | nil => rfl
  | cons x xs ih =>
    cases b with
    | nil => simp [strLe] at h1
    | cons y ys =>
      cases c with
      | nil => simp [strLe] at h2
      | cons z zs =>
        simp only [strLe] at h1 h2 ⊢
        by_cases hxy : x < y
        · by_cases hyz : y < z
          · have : x < z := by omega
            simp [this]
          · by_cases hzy : z < y
            · simp [hyz, hzy] at h2
            · have : x < z := by omega
              simp [this]
        · by_cases hyx : y < x
          · simp [hxy, hyx] at h1
          · have hxy' : x = y := by omega
            subst hxy'
            simp only [Nat.lt_irrefl, if_false] at h1
            by_cases hyz : x < z
            · simp [hyz]
            · by_cases hzy : z < x
              · simp [hyz, hzy] at h2
              · simp only [hyz, hzy, if_false] at h2 ⊢
                exact ih ys zs h1 h2

theorem sorted_sort (xs : List JSString) :
    (sort xs).Sorted (fun a b => strLe a b = true) := by
  haveI : IsTotal JSString (fun a b => strLe a b = true) := ⟨strLe_total⟩
  haveI : IsTrans JSString (fun a b => strLe a b = true) := ⟨strLe_trans⟩
  exact List.sorted_insertionSort _ xs

theorem perm_sort (xs : List JSString) : (sort xs).Perm xs :=
  List.perm_insertionSort _ xs

theorem mem_sort (xs : List JSString) (x : JSString) : x ∈ sort xs ↔ x ∈ xs :=
  (perm_sort xs).mem_iff

theorem sort_eq_self (xs : List JSString) (h : xs.Sorted (fun a b => strLe a b = true)) :
    sort xs = xs :=
  List.Sorted.insertionSort_eq h

theorem sort_sort (xs : List JSString) : sort (sort xs) = sort xs :=
  sort_eq_self _ (sorted_sort xs)

theorem sort_ne_nil (xs : List JSString) (h : xs ≠ []) : sort xs ≠ [] := by
  intro e
  have := (perm_sort xs).length_eq
  rw [e] at this
  exact h (List.length_eq_zero.1 this.symm)

theorem sort_perm_eq (xs ys : List JSString) (h : xs.Perm ys) : sort xs = sort ys := by
  haveI : IsAntisymm JSString (fun a b => strLe a b = true) := ⟨strLe_antisymm⟩
  exact List.eq_of_perm_of_sorted ((perm_sort xs).trans (h.trans (perm_sort ys).symm))
    (sorted_sort xs) (sorted_sort ys)

/-! ## Lemmas on the filter object -/

theorem mem_assign (m : Filters) (k : JSString) (v : List JSString) :
    ∀ p ∈ assign m k v, p = (k, v) ∨ p ∈ m := by
  induction m with
  | nil => simp [assign]
  | cons q rest ih =>
    obtain ⟨k', v'⟩ := q
    intro p hp
    simp only [assign] at hp
    split_ifs at hp with hk
    · rcases List.mem_cons.1 hp with rfl | hp
      · exact Or.inl rfl
      · exact Or.inr (List.mem_cons_of_mem _ hp)
    · rcases List.mem_cons.1 hp with rfl | hp
      · exact Or.inr (List.mem_cons_self _ _)
      · rcases ih p hp with h | h
        · exact Or.inl h
        · exact Or.inr (List.mem_cons_of_mem _ h)

theorem assign_of_not_mem (m : Filters) (k : JSString) (v : List JSString)
    (h : k ∉ m.map Prod.fst) : assign m k v = m ++ [(k, v)] := by
  induction m with
  | nil => rfl
  | cons q rest ih =>
    obtain ⟨k', v'⟩ := q
    have hk : k' ≠ k := fun e => h (by simp [e])
    have hrest : k ∉ rest.map Prod.fst := fun e => h (by simp [e])
    simp [assign, hk, ih hrest]

theorem keys_assign_of_mem (m : Filters) (k : JSString) (v : List JSString)
    (h : k ∈ m.map Prod.fst) : (assign m k v).map Prod.fst = m.map Prod.fst := by
  induction m with
  | nil => simp at h
  | cons q rest ih =>
    obtain ⟨k', v'⟩ := q
    by_cases hk : k' = k
    · simp [assign, hk]
    · have hrest : k ∈ rest.map Prod.fst := by
        simp only [List.map_cons, List.mem_cons] at h
        rcases h with h | h
        · exact absurd h.symm hk
        · exact h
      simp [assign, hk, ih hrest]

theorem nodup_keys_assign (m : Filters) (k : JSString) (v : List JSString)
    (h : (m.map Prod.fst).Nodup) : ((assign m k v).map Prod.fst).Nodup := by
  by_cases hk : k ∈ m.map Prod.fst
  · rw [keys_assign_of_mem m k v hk]; exact h
  · rw [assign_of_not_mem m k v hk, List.map_append]
    simp only [List.map_cons, List.map_nil]
    rw [List.nodup_append]
    refine ⟨h, List.nodup_singleton _, ?_⟩
    intro a ha hb
    simp only [List.mem_singleton] at hb
    exact hk (hb ▸ ha)

theorem filterSegments_foldl (m : Filters) (acc : List JSString) :
    m.foldl
      (fun accumulator p =>
        if p.2.length ≠ 0 then accumulator ++ [p.1 ++ colon :: join comma (sort p.2)]
        else accumulator) acc
      = acc ++ (m.filter (fun p => decide (p.2 ≠ []))).map segmentOf := by
  induction m generalizing acc with
  | nil => simp
  | cons q rest ih =>
    simp only [List.foldl_cons]
    rw [ih]
    by_cases hq : q.2 = []
    · simp [hq, List.filter_cons]
    · have hlen : q.2.length ≠ 0 := fun e => hq (List.length_eq_zero.1 e)
      simp [hq, hlen, List.filter_cons, segmentOf]

theorem filterSegments_eq (m : Filters) :
    filterSegments m = (m.filter (fun p => decide (p.2 ≠ []))).map segmentOf := by
  unfold filterSegments
  rw [filterSegments_foldl]
  simp

theorem wellFormed_nil : WellFormed [] := by
  simp [WellFormed]

theorem wellFormed_setProp (m : Filters) (k : JSString) (v : List JSString)
    (hm : WellFormed m) (hk : k ≠ protoKey → CleanEntry (k, v)) :
    WellFormed (setProp m k v) := by
  unfold setProp
  split_ifs with hproto
  · exact hm
  · refine ⟨nodup_keys_assign m k v hm.1, ?_⟩
    intro p hp
    rcases mem_assign m k v p hp with rfl | hp
    · exact hk hproto
    · exact hm.2 p hp

theorem wellFormed_perm (m m' : Filters) (h : m'.Perm m) (hm : WellFormed m) :
    WellFormed m' :=
  ⟨((h.map Prod.fst).nodup_iff).2 hm.1, fun p hp => hm.2 p (h.mem_iff.1 hp)⟩

theorem segmentOf_ne_nil (p : JSString × List JSString) : segmentOf p ≠ [] := by
  simp [segmentOf]

theorem not_mem_join_sort (sep c : Nat) (vs : List JSString) (hsep : c ≠ sep)
    (h : ∀ v ∈ vs, c ∉ v) : c ∉ join sep (sort vs) := by
  intro hc
  rcases mem_join sep (sort vs) c hc with e | ⟨v, hv, hcv⟩
  · exact hsep e
  · exact h v ((mem_sort vs v).1 hv) hcv

theorem semicolon_not_mem_segmentOf (p : JSString × List JSString)
    (hk : semicolon ∉ p.1) (hv : ∀ v ∈ p.2, semicolon ∉ v) : semicolon ∉ segmentOf p := by
  intro h
  simp only [segmentOf, List.mem_append, List.mem_cons] at h
  rcases h with h | h | h
  · exact hk h
  · exact absurd h (by decide)
  · exact not_mem_join_sort comma semicolon p.2 (by decide) hv h

theorem decodeSegment_segmentOf (acc : Filters) (p : JSString × List JSString)
    (hp : CleanEntry p) :
    decodeSegment acc (segmentOf p) = some (setProp acc p.1 (sort p.2)) := by
  obtain ⟨_, _, hcolon, hne, hvals⟩ := hp
  have hjoin : colon ∉ join comma (sort p.2) :=
    not_mem_join_sort comma colon p.2 (by decide) (fun v hv => (hvals v hv).2.1)
  have hsplit : split colon (segmentOf p) = [p.1, join comma (sort p.2)] := by
    unfold segmentOf
    rw [split_append_sep colon p.1 _ hcolon, split_of_not_mem colon _ hjoin]
  have hvalues : split comma (join comma (sort p.2)) = sort p.2 :=
    split_join comma (sort p.2) (sort_ne_nil p.2 hne)
      (fun v hv => (hvals v ((mem_sort p.2 v).1 hv)).2.2)
  simp only [decodeSegment, hsplit, hvalues]

theorem foldlM_decodeSegment_segments (c : Filters) (acc : Filters)
    (hc : ∀ p ∈ c, CleanEntry p) :
    (c.map segmentOf).foldlM decodeSegment acc
      = some (c.foldl (fun a p => setProp a p.1 (sort p.2)) acc) := by
  induction c generalizing acc with
  | nil => rfl
  | cons q rest ih =>
    simp only [List.map_cons, List.foldlM_cons, List.foldl_cons]
    rw [decodeSegment_segmentOf acc q (hc q (List.mem_cons_self _ _))]
    simp only [Option.bind_eq_bind, Option.some_bind]
    exact ih _ (fun p hp => hc p (List.mem_cons_of_mem _ hp))

theorem foldl_setProp_fresh (c : Filters) (acc : Filters)
    (hproto : ∀ p ∈ c, p.1 ≠ protoKey)
    (hnodup : ((acc ++ c).map Prod.fst).Nodup) :
    c.foldl (fun a p => setProp a p.1 (sort p.2)) acc
      = acc ++ c.map (fun p => (p.1, sort p.2)) := by
  induction c generalizing acc with
  | nil => simp
  | cons q rest ih =>
    have hq : q.1 ≠ protoKey := hproto q (List.mem_cons_self _ _)
    have hfresh : q.1 ∉ acc.map Prod.fst := by
      intro hmem
      rw [List.map_append, List.nodup_append] at hnodup
      exact hnodup.2.2 hmem (by simp)
    simp only [List.foldl_cons, List.map_cons]
    rw [show setProp acc q.1 (sort q.2) = acc ++ [(q.1, sort q.2)] by
      simp [setProp, hq, assign_of_not_mem acc q.1 _ hfresh]]
    rw [ih (acc ++ [(q.1, sort q.2)]) (fun p hp => hproto p (List.mem_cons_of_mem _ hp))]
    · simp
    · simpa [List.map_append] using hnodup

theorem perm_bySegment (m : Filters) : (bySegment m).Perm m :=
  List.perm_insertionSort _ m

theorem map_segmentOf_bySegment (m : Filters) :
    (bySegment m).map segmentOf = sort (m.map segmentOf) := by
  unfold bySegment sort
  exact List.map_insertionSort _ _ segmentOf m (fun a _ b _ => Iff.rfl)

theorem getCustomFiltersFromUrl_of_ne_nil (s : JSString) (h : s ≠ []) :
    getCustomFiltersFromUrl (some s) = (split semicolon s).foldlM decodeSegment [] := by
  obtain ⟨c, cs, rfl⟩ := List.exists_cons_of_ne_nil h
  rfl

theorem stripSemicolons_eq_self (s : JSString) (hhead : s.head? ≠ some semicolon)
    (hlast : s.getLast? ≠ some semicolon) : stripSemicolons s = s := by
  simp [stripSemicolons, hhead, hlast]

theorem join_segments_clean (segs : List JSString) (hne : ∀ x ∈ segs, x ≠ [])
    (hsemi : ∀ x ∈ segs, semicolon ∉ x) :
    (join semicolon segs).head? ≠ some semicolon ∧
      (join semicolon segs).getLast? ≠ some semicolon := by
  cases segs with
  | nil => simp [join]
  | cons x rest =>
    constructor
    · rw [head?_join semicolon x rest (hne x (List.mem_cons_self _ _))]
      intro h
      exact hsemi x (List.mem_cons_self _ _) (List.mem_of_mem_head? h)
    · obtain ⟨p, hp, hlast⟩ := getLast?_join semicolon (x :: rest) (by simp) hne
      rw [hlast]
      intro h
      exact hsemi p hp (List.mem_of_mem_getLast? h)

theorem filter_nonempty_of_clean (m : Filters) (hm : ∀ p ∈ m, p.2 ≠ []) :
    m.filter (fun p => decide (p.2 ≠ [])) = m := by
  rw [List.filter_eq_self]
  intro p hp
  simpa using hm p hp

theorem customFiltersString_of_wellFormed (m : Filters) (hm : WellFormed m) :
    customFiltersString m = join semicolon ((bySegment m).map segmentOf) := by
  unfold customFiltersString
  rw [filterSegments_eq, filter_nonempty_of_clean m (fun p hp => (hm.2 p hp).2.2.2.1),
    map_segmentOf_bySegment]

theorem encode_of_wellFormed (m : Filters) (hm : WellFormed m) :
    encode m = join semicolon ((bySegment m).map segmentOf) := by
  unfold encode
  rw [customFiltersString_of_wellFormed m hm]
  have hb := wellFormed_perm m (bySegment m) (perm_bySegment m) hm
  obtain ⟨h1, h2⟩ := join_segments_clean ((bySegment m).map segmentOf)
    (by
      intro x hx
      obtain ⟨p, _, rfl⟩ := List.mem_map.1 hx
      exact segmentOf_ne_nil p)
    (by
      intro x hx
      obtain ⟨p, hp, rfl⟩ := List.mem_map.1 hx
      exact semicolon_not_mem_segmentOf p (hb.2 p hp).2.1
        (fun v hv => ((hb.2 p hp).2.2.2.2 v hv).1))
  exact stripSemicolons_eq_self _ h1 h2

/-- Decoding the serialization of a well-formed mapping gives its canonical
form. -/
theorem decode_encode (m : Filters) (hm : WellFormed m) :
    getCustomFiltersFromUrl (some (encode m)) = some (canonical m) := by
  have hb := wellFormed_perm m (bySegment m) (perm_bySegment m) hm
  rw [encode_of_wellFormed m hm]
  cases hcase : bySegment m with
  | nil => simp [canonical, hcase, join, getCustomFiltersFromUrl]
  | cons q rest =>
    have hsegs : (bySegment m).map segmentOf ≠ [] := by simp [hcase]
    have hjoin : join semicolon ((bySegment m).map segmentOf) ≠ [] := by
      intro e
      have := head?_join semicolon (segmentOf q) (rest.map segmentOf) (segmentOf_ne_nil q)
      rw [hcase, List.map_cons] at e
      rw [e] at this
      obtain ⟨c, cs, hc⟩ := List.exists_cons_of_ne_nil (segmentOf_ne_nil q)
      rw [hc] at this
      simp at this
    rw [← hcase, getCustomFiltersFromUrl_of_ne_nil _ hjoin,
      split_join semicolon _ hsegs, foldlM_decodeSegment_segments _ _ hb.2,
      foldl_setProp_fresh _ _ (fun p hp => (hb.2 p hp).1) (by simpa using hb.1)]
    · simp [canonical]
    · intro x hx
      obtain ⟨p, hp, rfl⟩ := List.mem_map.1 hx
      exact semicolon_not_mem_segmentOf p (hb.2 p hp).2.1
        (fun v hv => ((hb.2 p hp).2.2.2.2 v hv).1)

theorem segmentOf_normalize (p : JSString × List JSString) :
    segmentOf (p.1, sort p.2) = segmentOf p := by
  simp [segmentOf, sort_sort]

/-- The canonical form serializes to the same string. -/
theorem customFiltersString_canonical (m : Filters) (hm : WellFormed m) :
    customFiltersString (canonical m) = customFiltersString m := by
  have hb := wellFormed_perm m (bySegment m) (perm_bySegment m) hm
  rw [customFiltersString_of_wellFormed m hm]
  unfold customFiltersString
  rw [filterSegments_eq, filter_nonempty_of_clean]
  · have : (canonical m).map segmentOf = (bySegment m).map segmentOf := by
      unfold canonical
      rw [List.map_map]
      exact List.map_congr_left (fun p _ => segmentOf_normalize p)
    rw [this, map_segmentOf_bySegment, sort_sort]
  · intro p hp
    obtain ⟨q, hq, rfl⟩ := List.mem_map.1 hp
    exact sort_ne_nil q.2 (hb.2 q hq).2.2.2.1

theorem encode_canonical (m : Filters) (hm : WellFormed m) :
    encode (canonical m) = encode m := by
  unfold encode
  rw [customFiltersString_canonical m hm]

theorem wellFormed_decodeSegment (acc acc' : Filters) (seg : JSString)
    (hseg : semicolon ∉ seg) (hacc : WellFormed acc)
    (h : decodeSegment acc seg = some acc') : WellFormed acc' := by
  unfold decodeSegment at h
  have hmem := mem_split colon seg
  cases hs : split colon seg with
  | nil => simp [hs] at h
  | cons key tl =>
    cases tl with
    | nil => simp [hs] at h
    | cons value tl' =>
      rw [hs] at h hmem
      simp only [Option.some.injEq] at h
      subst h
      have hkey := hmem key (by simp)
      have hvalue := hmem value (by simp)
      apply wellFormed_setProp _ _ _ hacc
      intro hproto
      refine ⟨hproto, fun e => hseg (hkey.2 _ e), hkey.1, split_ne_nil comma value, ?_⟩
      intro v hv
      have hvmem := mem_split comma value v hv
      exact ⟨fun e => hseg (hvalue.2 _ (hvmem.2 _ e)), fun e => hvalue.1 (hvmem.2 _ e), hvmem.1⟩

theorem wellFormed_foldlM (segs : List JSString) (acc m : Filters)
    (hsegs : ∀ seg ∈ segs, semicolon ∉ seg) (hacc : WellFormed acc)
    (h : segs.foldlM decodeSegment acc = some m) : WellFormed m := by
  induction segs generalizing acc with
  | nil =>
    simp only [List.foldlM_nil] at h
    cases h
    exact hacc
  | cons seg rest ih =>
    simp only [List.foldlM_cons] at h
    cases hd : decodeSegment acc seg with
    | none => simp [hd] at h
    | some acc' =>
      rw [hd] at h
      simp only [Option.bind_eq_bind, Option.some_bind] at h
      exact ih acc' (fun s hs => hsegs s (List.mem_cons_of_mem _ hs))
        (wellFormed_decodeSegment acc acc' seg (hsegs seg (List.mem_cons_self _ _)) hacc hd) h

/-- Whatever `getCustomFiltersFromUrl` returns is a well-formed mapping. -/
theorem wellFormed_decode (s : Option JSString) (m : Filters)
    (h : getCustomFiltersFromUrl s = some m) : WellFormed m := by
  cases s with
  | none =>
    simp only [getCustomFiltersFromUrl, Option.some.injEq] at h
    subst h; exact wellFormed_nil
  | some str =>
    cases str with
    | nil =>
      simp only [getCustomFiltersFromUrl, Option.some.injEq] at h
      subst h; exact wellFormed_nil
    | cons c cs =>
      simp only [getCustomFiltersFromUrl] at h
      exact wellFormed_foldlM _ [] m (fun seg hseg => (mem_split semicolon _ seg hseg).1)
        wellFormed_nil h

theorem mem_canonical (m : Filters) (k : JSString) (vs' : List JSString) :
    (k, vs') ∈ canonical m ↔ ∃ vs, (k, vs) ∈ m ∧ vs' = sort vs := by
  unfold canonical
  rw [List.mem_map]
  constructor
  · rintro ⟨p, hp, hpe⟩
    refine ⟨p.2, ?_, ?_⟩
    · have : p.1 = k := congrArg Prod.fst hpe
      rw [← this]
      exact (perm_bySegment m).mem_iff.1 hp
    · exact (congrArg Prod.snd hpe).symm
  · rintro ⟨vs, hvs, rfl⟩
    exact ⟨(k, vs), (perm_bySegment m).mem_iff.2 hvs, rfl⟩

theorem keys_canonical (m : Filters) :
    ((canonical m).map Prod.fst).Perm (m.map Prod.fst) := by
  unfold canonical
  rw [List.map_map]
  exact (perm_bySegment m).map Prod.fst

theorem mem_setProp (m : Filters) (k : JSString) (v : List JSString) :
    ∀ p ∈ setProp m k v, p = (k, v) ∨ p ∈ m := by
  intro p hp
  unfold setProp at hp
  split_ifs at hp
  · exact Or.inr hp
  · exact mem_assign m k v p hp

theorem canonical_encode (m : Filters) (hm : NoSemicolons m) : Canonical (encode m) := by
  have hsegs : ∀ x ∈ sort (filterSegments m), x ≠ [] ∧ semicolon ∉ x := by
    intro x hx
    rw [mem_sort, filterSegments_eq] at hx
    obtain ⟨p, hp, rfl⟩ := List.mem_map.1 hx
    have hpm := (List.mem_filter.1 hp).1
    exact ⟨segmentOf_ne_nil p, semicolon_not_mem_segmentOf p (hm p hpm).1 (hm p hpm).2⟩
  obtain ⟨h1, h2⟩ := join_segments_clean (sort (filterSegments m))
    (fun x hx => (hsegs x hx).1) (fun x hx => (hsegs x hx).2)
  have henc : encode m = join semicolon (sort (filterSegments m)) :=
    stripSemicolons_eq_self _ h1 h2
  rw [henc]
  refine ⟨h1, h2, ?_⟩
  by_cases hnil : sort (filterSegments m) = []
  · rw [hnil]
    simp [join, split]
  · rw [split_join semicolon _ hnil (fun x hx => (hsegs x hx).2)]
    exact sorted_sort _

theorem takeWhile_ne_of_not_mem (sep : Nat) (s : JSString) (h : sep ∉ s) :
    s.takeWhile (· != sep) = s := by
  rw [List.takeWhile_eq_self_iff]
  intro c hc
  have : c ≠ sep := fun e => h (e ▸ hc)
  simpa using this

theorem split_of_mem (sep : Nat) (s : JSString) (h : sep ∈ s) :
    split sep s = s.takeWhile (· != sep) :: split sep ((s.dropWhile (· != sep)).drop 1) := by
  induction s with
  | nil => simp at h
  | cons c cs ih =>
    by_cases hc : c = sep
    · simp [split, hc, List.takeWhile, List.dropWhile]
    · have hcs : sep ∈ cs := by
        rcases List.mem_cons.1 h with e | e
        · exact absurd e.symm hc
        · exact e
      have hbne : (c != sep) = true := by simpa using hc
      simp only [split, hc, if_false, ih hcs, List.takeWhile, List.dropWhile, hbne]

theorem split_head (sep : Nat) (s : JSString) :
    ∃ tl, split sep s = s.takeWhile (· != sep) :: tl := by
  by_cases h : sep ∈ s
  · exact ⟨_, split_of_mem sep s h⟩
  · exact ⟨[], by rw [split_of_not_mem sep s h, takeWhile_ne_of_not_mem sep s h]⟩

theorem splitFirst_of_mem (sep : Nat) (s : JSString) (h : sep ∈ s) :
    splitFirst sep s = some (s.takeWhile (· != sep), (s.dropWhile (· != sep)).drop 1) := by
  induction s with
  | nil => simp at h
  | cons c cs ih =>
    by_cases hc : c = sep
    · simp [splitFirst, hc, List.takeWhile, List.dropWhile]
    · have hcs : sep ∈ cs := by
        rcases List.mem_cons.1 h with e | e
        · exact absurd e.symm hc
        · exact e
      have hbne : (c != sep) = true := by simpa using hc
      simp [splitFirst, hc, ih hcs, List.takeWhile, List.dropWhile, hbne]

theorem count_eq_one (sep : Nat) (s : JSString) (h : s.count sep = 1) :
    sep ∈ s ∧ sep ∉ (s.dropWhile (· != sep)).drop 1 := by
  induction s with
  | nil => simp at h
  | cons c cs ih =>
    by_cases hc : c = sep
    · subst hc
      rw [List.count_cons_self] at h
      have h0 : cs.count c = 0 := by omega
      refine ⟨List.mem_cons_self _ _, ?_⟩
      simpa [List.dropWhile] using List.count_eq_zero.1 h0
    · rw [List.count_cons_of_ne (fun e => hc e.symm)] at h
      have hbne : (c != sep) = true := by simpa using hc
      obtain ⟨h1, h2⟩ := ih h
      exact ⟨List.mem_cons_of_mem _ h1, by simpa [List.dropWhile, hbne] using h2⟩

theorem decodeSegment_of_mem (acc : Filters) (segment : JSString) (h : colon ∈ segment) :
    decodeSegment acc segment
      = some (setProp acc (codeEntry segment).1 (codeEntry segment).2) := by
  obtain ⟨tl, htl⟩ := split_head colon ((segment.dropWhile (· != colon)).drop 1)
  simp only [decodeSegment, split_of_mem colon segment h, htl, codeEntry]

theorem decodeSegment_of_not_mem (acc : Filters) (segment : JSString) (h : colon ∉ segment) :
    decodeSegment acc segment = none := by
  simp only [decodeSegment, split_of_not_mem colon segment h]

theorem foldlM_decodeSegment_of_mem (segs : List JSString) (acc : Filters)
    (h : ∀ seg ∈ segs, colon ∈ seg) :
    segs.foldlM decodeSegment acc
      = some ((segs.map codeEntry).foldl (fun obj e => setProp obj e.1 e.2) acc) := by
  induction segs generalizing acc with
  | nil => rfl
  | cons seg rest ih =>
    simp only [List.foldlM_cons, List.map_cons, List.foldl_cons]
    rw [decodeSegment_of_mem acc seg (h seg (List.mem_cons_self _ _))]
    simp only [Option.bind_eq_bind, Option.some_bind]
    exact ih _ (fun s hs => h s (List.mem_cons_of_mem _ hs))

theorem foldlM_decodeSegment_of_not_mem (segs : List JSString) (acc : Filters)
    (h : ∃ seg ∈ segs, colon ∉ seg) : segs.foldlM decodeSegment acc = none := by
  induction segs generalizing acc with
  | nil => simp at h
  | cons seg rest ih =>
    simp only [List.foldlM_cons]
    by_cases hseg : colon ∈ seg
    · rw [decodeSegment_of_mem acc seg hseg]
      simp only [Option.bind_eq_bind, Option.some_bind]
      apply ih
      obtain ⟨bad, hbad, hno⟩ := h
      rcases List.mem_cons.1 hbad with rfl | hbad
      · exact absurd hseg hno
      · exact ⟨bad, hbad, hno⟩
    · rw [decodeSegment_of_not_mem acc seg hseg]
      rfl

theorem ruleEntries_foldlM (segs : List JSString) (entries : List (JSString × List JSString))
    (h : ∀ seg ∈ segs, seg.count colon = 1) :
    segs.foldlM
      (fun entries segment =>
        if segment = [] then some entries
        else (splitFirst colon segment).map (fun p => entries ++ [(p.1, split comma p.2)]))
      entries
      = some (entries ++ segs.map codeEntry) := by
  induction segs generalizing entries with
  | nil => simp
  | cons seg rest ih =>
    obtain ⟨hmem, hafter⟩ := count_eq_one colon seg (h seg (List.mem_cons_self _ _))
    have hne : seg ≠ [] := fun e => by simp [e] at hmem
    have hentry : codeEntry seg
        = (seg.takeWhile (· != colon), split comma ((seg.dropWhile (· != colon)).drop 1)) := by
      simp only [codeEntry, takeWhile_ne_of_not_mem colon _ hafter]
    simp only [List.foldlM_cons, hne, if_false, splitFirst_of_mem colon seg hmem,
      Option.map_some', Option.bind_eq_bind, Option.some_bind]
    rw [ih _ (fun s hs => h s (List.mem_cons_of_mem _ hs))]
    simp [hentry]

/-- The serialization does not depend on the order in which the keys are
listed. -/
theorem encode_perm (m m' : Filters) (h : m.Perm m') : encode m = encode m' := by
  unfold encode customFiltersString
  rw [filterSegments_eq, filterSegments_eq]
  rw [sort_perm_eq _ _ ((h.filter _).map segmentOf)]

/-! ## C1: round trip of the codec -/

/-- C1 as stated fails. The mapping `{a: ["x,y"]}` serializes to `a:x,y`, which
decodes to `{a: ["x", "y"]}`; `{a: ["x:y"]}` comes back as `{a: ["x"]}`;
`{a: ["x;y"]}` and `{"a;b": ["x"]}` serialize to strings whose decoding throws;
`{"a:b": ["x"]}` comes back as `{a: ["b"]}`; and `{__proto__: ["x"]}` comes
back without any name. -/
theorem roundTrip_fails :
    (IsFilterMapping [(ascii "a", [ascii "x,y"])] ∧ ¬ RoundTrips [(ascii "a", [ascii "x,y"])]) ∧
    (IsFilterMapping [(ascii "a", [ascii "x:y"])] ∧ ¬ RoundTrips [(ascii "a", [ascii "x:y"])]) ∧
    (IsFilterMapping [(ascii "a", [ascii "x;y"])] ∧ ¬ RoundTrips [(ascii "a", [ascii "x;y"])]) ∧
    (IsFilterMapping [(ascii "a:b", [ascii "x"])] ∧ ¬ RoundTrips [(ascii "a:b", [ascii "x"])]) ∧
    (IsFilterMapping [(ascii "a;b", [ascii "x"])] ∧ ¬ RoundTrips [(ascii "a;b", [ascii "x"])]) ∧
    (IsFilterMapping [(protoKey, [ascii "x"])] ∧ ¬ RoundTrips [(protoKey, [ascii "x"])]) := by
  refine ⟨⟨by unfold IsFilterMapping; decide, ?_⟩, ⟨by unfold IsFilterMapping; decide, ?_⟩,
    ⟨by unfold IsFilterMapping; decide, ?_⟩, ⟨by unfold IsFilterMapping; decide, ?_⟩,
    ⟨by unfold IsFilterMapping; decide, ?_⟩, ⟨by unfold IsFilterMapping; decide, ?_⟩⟩
  · rintro ⟨m', hm', _, _, hvals⟩
    have hdec : getCustomFiltersFromUrl (some (encode [(ascii "a", [ascii "x,y"])]))
        = some [(ascii "a", [ascii "x", ascii "y"])] := by decide
    rw [hdec] at hm'
    cases hm'
    obtain ⟨vs, hvs, hx⟩ :=
      (hvals (ascii "a") (ascii "x")).1 ⟨[ascii "x", ascii "y"], by simp, by simp⟩
    rw [List.mem_singleton] at hvs
    cases hvs
    revert hx
    decide
  · rintro ⟨m', hm', _, _, hvals⟩
    have hdec : getCustomFiltersFromUrl (some (encode [(ascii "a", [ascii "x:y"])]))
        = some [(ascii "a", [ascii "x"])] := by decide
    rw [hdec] at hm'
    cases hm'
    obtain ⟨vs, hvs, hx⟩ :=
      (hvals (ascii "a") (ascii "x")).1 ⟨[ascii "x"], by simp, by simp⟩
    rw [List.mem_singleton] at hvs
    cases hvs
    revert hx
    decide
  · rintro ⟨m', hm', _⟩
    have hdec : getCustomFiltersFromUrl (some (encode [(ascii "a", [ascii "x;y"])])) = none := by
      decide
    rw [hdec] at hm'
    cases hm'
  · rintro ⟨m', hm', _, hkeys, _⟩
    have hdec : getCustomFiltersFromUrl (some (encode [(ascii "a:b", [ascii "x"])]))
        = some [(ascii "a", [ascii "b"])] := by decide
    rw [hdec] at hm'
    cases hm'
    have := (hkeys (ascii "a")).1 (by simp)
    revert this
    decide
  · rintro ⟨m', hm', _⟩
    have hdec : getCustomFiltersFromUrl (some (encode [(ascii "a;b", [ascii "x"])])) = none := by
      decide
    rw [hdec] at hm'
    cases hm'
  · rintro ⟨m', hm', _, hkeys, _⟩
    have hdec : getCustomFiltersFromUrl (some (encode [(protoKey, [ascii "x"])])) = some [] := by
      decide
    rw [hdec] at hm'
    cases hm'
    have := (hkeys protoKey).2 (by simp)
    simp at this

/-- C1, amended: the round trip holds for every mapping whose names are
pairwise different, are not `__proto__` and hold no `;` or `:`, and whose
value arrays are not empty and hold values without `;`, `:` or `,`. -/
theorem roundTrip_of_wellFormed (m : Filters) (hm : WellFormed m) : RoundTrips m := by
  refine ⟨canonical m, decode_encode m hm, ?_, ?_, ?_⟩
  · exact ((keys_canonical m).nodup_iff).2 hm.1
  · intro k
    exact (keys_canonical m).mem_iff
  · intro k v
    constructor
    · rintro ⟨vs', hvs', hv⟩
      obtain ⟨vs, hvs, rfl⟩ := (mem_canonical m k vs').1 hvs'
      exact ⟨vs, hvs, (mem_sort vs v).1 hv⟩
    · rintro ⟨vs, hvs, hv⟩
      exact ⟨sort vs, (mem_canonical m k (sort vs)).2 ⟨vs, hvs, rfl⟩, (mem_sort vs v).2 hv⟩

/-- C1 (amended) at `{size: ["m"], color: ["red", "blue"]}`. -/
theorem roundTrip_of_wellFormed_witness :
    WellFormed sampleFilters ∧ RoundTrips sampleFilters :=
  ⟨by unfold WellFormed CleanEntry; decide,
    roundTrip_of_wellFormed sampleFilters (by unfold WellFormed CleanEntry; decide)⟩

/-! ## C2: canonical form of the serialization -/

/-- C2 as stated fails: for the filter name `;;a` with value `x`,
`updateFilter` writes `;a:x`, which starts with `;`; for the filter `a` with
value `x;;` it writes `a:x;`, which ends with `;`. -/
theorem updateFilter_not_canonical :
    updateFilter none (ascii ";;a") [ascii "x"] = some (ascii ";a:x") ∧
    ¬ Canonical (ascii ";a:x") ∧
    updateFilter none (ascii "a") [ascii "x;;"] = some (ascii "a:x;") ∧
    ¬ Canonical (ascii "a:x;") := by
  refine ⟨by decide, ?_, by decide, ?_⟩
  · intro h
    exact h.1 (by decide)
  · intro h
    exact h.2.1 (by decide)

/-- C2, amended: for every filter mapping whose names and values hold no `;`,
the serialized string does not start with `;`, does not end with `;`, and its
`;`-separated segments are in ascending order. The filters `updateFilter`
reads from the URL never hold a `;`, so the string it writes has that form
whenever the name and the values it is called with hold none. -/
theorem updateFilter_canonical :
    (∀ m : Filters, NoSemicolons m → Canonical (encode m)) ∧
    (∀ (customFiltersParam : Option JSString) (filterName : JSString)
        (filterArray : List JSString) (written : JSString),
      semicolon ∉ filterName → (∀ v ∈ filterArray, semicolon ∉ v) →
      updateFilter customFiltersParam filterName filterArray = some written →
      Canonical written) := by
  refine ⟨canonical_encode, ?_⟩
  intro param filterName filterArray written hname hvals hw
  unfold updateFilter at hw
  cases hprev : getCustomFiltersFromUrl param with
  | none => simp [hprev] at hw
  | some prev =>
    rw [hprev] at hw
    simp only [Option.map_some', Option.some.injEq] at hw
    subst hw
    apply canonical_encode
    intro p hp
    rcases mem_setProp prev filterName filterArray p hp with rfl | hp
    · exact ⟨hname, hvals⟩
    · have := (wellFormed_decode param prev hprev).2 p hp
      exact ⟨this.2.1, fun v hv => (this.2.2.2.2 v hv).1⟩

/-- C2 (amended) at the URL filters `size:m`, updated with
`color = ["red", "blue"]`: the string written is `color:blue,red;size:m`. -/
theorem updateFilter_canonical_witness :
    updateFilter (some (ascii "size:m")) (ascii "color") [ascii "red", ascii "blue"]
      = some (ascii "color:blue,red;size:m") ∧
    Canonical (ascii "color:blue,red;size:m") :=
  ⟨by decide,
    updateFilter_canonical.2 (some (ascii "size:m")) (ascii "color") [ascii "red", ascii "blue"]
      (ascii "color:blue,red;size:m") (by decide) (by decide) (by decide)⟩

/-! ## C3: re-serialization is stable -/

/-- C3: for every custom-filter string `s` that decodes without error, with
`s1` the encoding of the decoded mapping, decoding `s1` succeeds and encoding
the result gives `s1` again. -/
theorem reserialization_stable (s : JSString) (m : Filters)
    (hdecode : getCustomFiltersFromUrl (some s) = some m) :
    ∃ m1, getCustomFiltersFromUrl (some (encode m)) = some m1 ∧ encode m1 = encode m :=
  ⟨canonical m, decode_encode m (wellFormed_decode _ m hdecode),
    encode_canonical m (wellFormed_decode _ m hdecode)⟩

/-- C3 at `size:m;color:red,blue`, whose encoding after decoding is
`color:blue,red;size:m`. -/
theorem reserialization_stable_witness :
    getCustomFiltersFromUrl (some (ascii "size:m;color:red,blue")) = some sampleFilters ∧
    encode sampleFilters = ascii "color:blue,red;size:m" ∧
    ∃ m1, getCustomFiltersFromUrl (some (encode sampleFilters)) = some m1 ∧
      encode m1 = encode sampleFilters :=
  ⟨by decide, by decide,
    reserialization_stable (ascii "size:m;color:red,blue") sampleFilters (by decide)⟩

/-! ## C4: the decoding rule -/

/-- C4 as stated fails: `a:b:c` decodes to `{a: ["b"]}` where the rule gives
`{a: ["b:c"]}` (the text after a second `:` is dropped), and `a:b;` makes the
decoding throw where the rule gives `{a: ["b"]}` (the empty segment does not
contribute nothing). -/
theorem decode_not_by_rule :
    getCustomFiltersFromUrl (some (ascii "a:b:c")) = some [(ascii "a", [ascii "b"])] ∧
    decodeByRule (ascii "a:b:c") = some [(ascii "a", [ascii "b:c"])] ∧
    getCustomFiltersFromUrl (some (ascii "a:b:c")) ≠ decodeByRule (ascii "a:b:c") ∧
    getCustomFiltersFromUrl (some (ascii "a:b;")) = none ∧
    decodeByRule (ascii "a:b;") = some [(ascii "a", [ascii "b"])] ∧
    getCustomFiltersFromUrl (some (ascii "a:b;")) ≠ decodeByRule (ascii "a:b;") := by
  refine ⟨by decide, by decide, by decide, by decide, by decide, by decide⟩

/-- C4, amended: for every `customFilters` string whose `;`-separated segments
each hold exactly one `:`, the result is the one the rule gives (split on `;`,
each segment split at its `:` into a name and a value-list, the value-list
split on `,`). In general the name is the text before the first `:` and the
value-list the text between the first and the second `:`; and a non-empty
string with a segment that holds no `:` (an empty segment included) makes the
decoding throw. -/
theorem decode_rule_amended :
    (∀ s : JSString, (∀ seg ∈ split semicolon s, seg.count colon = 1) →
      getCustomFiltersFromUrl (some s) = decodeByRule s ∧
      decodeByRule s = some (buildFilters ((split semicolon s).map codeEntry))) ∧
    (∀ s : JSString, s ≠ [] → (∀ seg ∈ split semicolon s, colon ∈ seg) →
      getCustomFiltersFromUrl (some s)
        = some (buildFilters ((split semicolon s).map codeEntry))) ∧
    (∀ s : JSString, s ≠ [] → (∃ seg ∈ split semicolon s, colon ∉ seg) →
      getCustomFiltersFromUrl (some s) = none) := by
  have hgeneral : ∀ s : JSString, s ≠ [] → (∀ seg ∈ split semicolon s, colon ∈ seg) →
      getCustomFiltersFromUrl (some s)
        = some (buildFilters ((split semicolon s).map codeEntry)) := by
    intro s hs h
    rw [getCustomFiltersFromUrl_of_ne_nil s hs, foldlM_decodeSegment_of_mem _ _ h]
    rfl
  refine ⟨?_, hgeneral, ?_⟩
  · intro s h
    have hs : s ≠ [] := by
      intro e
      subst e
      have := h [] (by simp [split])
      simp at this
    have hrule : decodeByRule s = some (buildFilters ((split semicolon s).map codeEntry)) := by
      unfold decodeByRule ruleEntries
      rw [ruleEntries_foldlM _ _ h]
      simp
    refine ⟨?_, hrule⟩
    rw [hrule]
    exact hgeneral s hs (fun seg hseg => (count_eq_one colon seg (h seg hseg)).1)
  · intro s hs h
    rw [getCustomFiltersFromUrl_of_ne_nil s hs]
    exact foldlM_decodeSegment_of_not_mem _ _ h

/-- C4 (amended) at `color:red,blue;size:m`. -/
theorem decode_rule_amended_witness :
    getCustomFiltersFromUrl (some (ascii "color:red,blue;size:m"))
      = decodeByRule (ascii "color:red,blue;size:m") ∧
    decodeByRule (ascii "color:red,blue;size:m")
      = some (buildFilters ((split semicolon (ascii "color:red,blue;size:m")).map codeEntry)) :=
  decode_rule_amended.1 (ascii "color:red,blue;size:m") (by decide)

/-! ## C5: price range from the URL -/

/-- C5 as stated fails at `?priceMin=9007199254740993`: the parameter is the
decimal text of the integer `2 ^ 53 + 1`, and the bound read is
`9007199254740992`, the double nearest to it. -/
theorem getPriceRangeFromUrl_rounds :
    largePriceLocation.query.priceMin = some (decimal 9007199254740993) ∧
    (getPriceRangeFromUrl constructorState largePriceLocation).min
      = JSNumber.int 9007199254740992 ∧
    (getPriceRangeFromUrl constructorState largePriceLocation).min
      ≠ JSNumber.int 9007199254740993 := by
  refine ⟨by simp [largePriceLocation, decimal, ascii], by decide, by decide⟩

/-- C5, amended: `getPriceRangeFromUrl` decides `min` and `max` independently.
With the constructor's default range, an absent `priceMin` gives `min = 0` and
an absent `priceMax` gives `max = 300` (so a URL with neither gives
`{min: 0, max: 300}`); a parameter present as the decimal text of an integer
of magnitude at most `2 ^ 53` gives that integer as the bound, whatever the
other parameter is. -/
theorem getPriceRangeFromUrl_spec (st : State) (location : Location)
    (hdefault : st.defaultPriceRange = constructorState.defaultPriceRange) :
    (location.query.priceMin = none →
      (getPriceRangeFromUrl st location).min = JSNumber.int 0) ∧
    (location.query.priceMax = none →
      (getPriceRangeFromUrl st location).max = JSNumber.int 300) ∧
    (location.query.priceMin = none → location.query.priceMax = none →
      getPriceRangeFromUrl st location = { min := JSNumber.int 0, max := JSNumber.int 300 }) ∧
    (∀ n : Int, n.natAbs ≤ 2 ^ 53 → location.query.priceMin = some (decimal n) →
      (getPriceRangeFromUrl st location).min = JSNumber.int n) ∧
    (∀ n : Int, n.natAbs ≤ 2 ^ 53 → location.query.priceMax = some (decimal n) →
      (getPriceRangeFromUrl st location).max = JSNumber.int n) := by
  have hmin : st.defaultPriceRange.min = JSNumber.int 0 := by rw [hdefault]; rfl
  have hmax : st.defaultPriceRange.max = JSNumber.int 300 := by rw [hdefault]; rfl
  refine ⟨?_, ?_, ?_, ?_, ?_⟩
  · intro h
    simp [getPriceRangeFromUrl, h, truthy, hmin]
  · intro h
    simp [getPriceRangeFromUrl, h, truthy, hmax]
  · intro h1 h2
    simp [getPriceRangeFromUrl, h1, h2, truthy, hmin, hmax]
  · intro n hn h
    simp only [getPriceRangeFromUrl, h, truthy_decimal n, if_true, Option.getD_some]
    exact parseInt_decimal n hn
  · intro n hn h
    simp only [getPriceRangeFromUrl, h, truthy_decimal n, if_true, Option.getD_some]
    exact parseInt_decimal n hn

/-- C5 (amended) at `?priceMin=25`: the range read is `{min: 25, max: 300}`. -/
theorem getPriceRangeFromUrl_spec_witness :
    (getPriceRangeFromUrl constructorState priceLocation).min = JSNumber.int 25 ∧
    (getPriceRangeFromUrl constructorState priceLocation).max = JSNumber.int 300 :=
  ⟨(getPriceRangeFromUrl_spec constructorState priceLocation rfl).2.2.2.1 25 (by decide)
      (by simp [priceLocation, decimal, ascii]),
   (getPriceRangeFromUrl_spec constructorState priceLocation rfl).2.1 rfl⟩

/-! ## C6: pagination advance -/

/-- C6: with `pageSize` 12, `increasePage` writes a page exactly when
`isLoading` is false, and the page written is
`min(p, floor(totalItems / pageSize)) + 1`, where `p` is the page of the URL
(1 when absent). -/
theorem increasePage_writes (st : State) (props : Props) (hsize : st.pageSize = 12) :
    ((increasePage st props).isSome = true ↔ props.isLoading = false) ∧
    (props.isLoading = false →
      increasePage st props
        = some (min (props.location.query.page.getD 1) (props.totalItems / 12) + 1)) ∧
    (props.isLoading = true → increasePage st props = none) := by
  have hmin : ∀ a b : Nat, (if b < a then b else a) = min a b := by
    intro a b
    by_cases h : b < a
    · simp [h, Nat.min_eq_right (Nat.le_of_lt h)]
    · simp [h, Nat.min_eq_left (Nat.le_of_not_lt h)]
  cases hl : props.isLoading <;> simp [increasePage, hl, hsize, hmin]

/-- C6 at `totalItems = 25`, URL page 5: `totalPages` is 2 and the page written
is 3; while loading nothing is written. -/
theorem increasePage_writes_witness :
    25 / 12 = 2 ∧
    increasePage constructorState (listingProps 25 (some 5) false) = some 3 ∧
    increasePage constructorState (listingProps 25 (some 5) true) = none :=
  ⟨by decide,
   (increasePage_writes constructorState (listingProps 25 (some 5) false) rfl).2.1 rfl,
   (increasePage_writes constructorState (listingProps 25 (some 5) true) rfl).2.2 rfl⟩

/-! ## C7: the page written against the page amount -/

/-- C7 (fails on the code): with 24 items and page size 12 the calculated page
amount is 2; from URL page 2, `increasePage` writes page 3, which exceeds it. -/
theorem increasePage_exceeds_totalPages :
    24 / constructorState.pageSize = 2 ∧
    increasePage constructorState (listingProps 24 (some 2) false) = some 3 ∧
    ¬ (3 ≤ 24 / constructorState.pageSize) := by
  decide

/-! ## C8: fetch trigger on update -/

/-- C8 as stated fails when the URL changes to `?customFilters=abc`:
`location.search` changed and `requestCategory` is invoked, but it throws
before the dispatch, so no category fetch is issued. -/
theorem componentDidUpdate_no_fetch :
    malformedProps.location.search ≠ (listingProps 25 none false).location.search ∧
    (componentDidUpdate constructorState malformedProps (listingProps 25 none false)).requested
      = true ∧
    (componentDidUpdate constructorState malformedProps (listingProps 25 none false)).fetch
      = none := by
  refine ⟨by decide, by decide, by decide⟩

/-- C8, amended: `componentDidUpdate` invokes `requestCategory` if and only if
`location.pathname` changed, or `location.search` changed, or `categoryIds`
changed; a category fetch is issued if and only if one of the three changed and
the `customFilters` parameter of the current URL is absent or decodes without
error, and the options fetched and the state afterwards are then those of
`requestCategory`; with all three unchanged nothing is invoked or fetched and
the state stays; and both decisions are the same whatever the categories (so
the category ids) of the two props are. -/
theorem componentDidUpdate_fetch (st : State) (props prevProps : Props) :
    ((componentDidUpdate st props prevProps).requested = true ↔
      (props.location.pathname ≠ prevProps.location.pathname ∨
       props.location.search ≠ prevProps.location.search ∨
       props.categoryIds ≠ prevProps.categoryIds)) ∧
    ((componentDidUpdate st props prevProps).fetch.isSome = true ↔
      (props.location.pathname ≠ prevProps.location.pathname ∨
       props.location.search ≠ prevProps.location.search ∨
       props.categoryIds ≠ prevProps.categoryIds) ∧
      (getCustomFiltersFromUrl props.location.query.customFilters).isSome = true) ∧
    (∀ st' options, (componentDidUpdate st props prevProps).requested = true →
      requestCategory st props = some (st', options) →
      (componentDidUpdate st props prevProps).fetch = some options ∧
      (componentDidUpdate st props prevProps).state = st') ∧
    (props.location.pathname = prevProps.location.pathname →
      props.location.search = prevProps.location.search →
      props.categoryIds = prevProps.categoryIds →
      (componentDidUpdate st props prevProps).requested = false ∧
      (componentDidUpdate st props prevProps).fetch = none ∧
      (componentDidUpdate st props prevProps).state = st) ∧
    (∀ category prevCategory : Category,
      (componentDidUpdate st { props with category := category }
          { prevProps with category := prevCategory }).requested
        = (componentDidUpdate st props prevProps).requested ∧
      (componentDidUpdate st { props with category := category }
          { prevProps with category := prevCategory }).fetch.isSome
        = (componentDidUpdate st props prevProps).fetch.isSome) := by
  have hchanged : ∀ p q : Props,
      ((urlHasChanged p.location q || decide (p.categoryIds ≠ q.categoryIds)) = true ↔
      (p.location.pathname ≠ q.location.pathname ∨ p.location.search ≠ q.location.search ∨
        p.categoryIds ≠ q.categoryIds)) := by
    intro p q
    unfold urlHasChanged
    by_cases h2 : p.location.pathname ≠ q.location.pathname <;>
    by_cases h3 : p.location.search ≠ q.location.search <;>
    by_cases h4 : p.categoryIds ≠ q.categoryIds <;>
    simp [h2, h3, h4]
  have hsome : ∀ p : Props, (requestCategory st p).isSome
      = (getCustomFiltersFromUrl p.location.query.customFilters).isSome := by
    intro p
    unfold requestCategory
    cases getCustomFiltersFromUrl p.location.query.customFilters <;> rfl
  have hreq : ∀ p q : Props, ((componentDidUpdate st p q).requested = true ↔
      (urlHasChanged p.location q || decide (p.categoryIds ≠ q.categoryIds)) = true) := by
    intro p q
    dsimp only [componentDidUpdate]
    by_cases hc : (urlHasChanged p.location q || decide (p.categoryIds ≠ q.categoryIds)) = true
    · rw [if_pos hc]
      refine ⟨fun _ => hc, fun _ => ?_⟩
      cases requestCategory st p <;> rfl
    · rw [if_neg hc]
      exact ⟨fun h => Bool.noConfusion h, fun h => absurd h hc⟩
  have hfetch : ∀ p q : Props, ((componentDidUpdate st p q).fetch.isSome = true ↔
      (urlHasChanged p.location q || decide (p.categoryIds ≠ q.categoryIds)) = true ∧
        (getCustomFiltersFromUrl p.location.query.customFilters).isSome = true) := by
    intro p q
    rw [← hsome p]
    dsimp only [componentDidUpdate]
    by_cases hc : (urlHasChanged p.location q || decide (p.categoryIds ≠ q.categoryIds)) = true
    · rw [if_pos hc]
      cases requestCategory st p with
      | none => exact ⟨fun h => Bool.noConfusion h, fun h => Bool.noConfusion h.2⟩
      | some r => exact ⟨fun _ => ⟨hc, rfl⟩, fun _ => rfl⟩
    · rw [if_neg hc]
      exact ⟨fun h => Bool.noConfusion h, fun h => absurd h.1 hc⟩
  refine ⟨(hreq props prevProps).trans (hchanged props prevProps),
    (hfetch props prevProps).trans (and_congr (hchanged props prevProps) Iff.rfl), ?_, ?_, ?_⟩
  · intro st' options hrequested hrc
    have hc := (hreq props prevProps).1 hrequested
    dsimp only [componentDidUpdate]
    rw [if_pos hc, hrc]
    exact ⟨rfl, rfl⟩
  · intro h2 h3 h4
    have hc : ¬ (urlHasChanged props.location prevProps
        || decide (props.categoryIds ≠ prevProps.categoryIds)) = true := by
      rw [hchanged]
      simp [h2, h3, h4]
    dsimp only [componentDidUpdate]
    rw [if_neg hc]
    exact ⟨rfl, rfl, rfl⟩
  · intro category prevCategory
    constructor
    · rw [Bool.eq_iff_iff, hreq, hreq, hchanged, hchanged]
    · rw [Bool.eq_iff_iff, hfetch, hfetch, hchanged, hchanged]

/-- C8 (amended) at an update from `/women` to the URL
`?customFilters=color:red,blue;size:m&page=3&sortKey=price&sortDirection=DESC`:
a fetch is issued; and at an update that changes the category only, none is. -/
theorem componentDidUpdate_fetch_witness :
    (componentDidUpdate constructorState
      { listingProps 25 none false with location := filteredLocation }
      (listingProps 25 none false)).fetch.isSome = true ∧
    (componentDidUpdate constructorState
      { listingProps 25 (some 1) false with category := { id := some 4, entries := 5 } }
      (listingProps 25 (some 1) false)).fetch = none :=
  ⟨(componentDidUpdate_fetch constructorState
      { listingProps 25 none false with location := filteredLocation }
      (listingProps 25 none false)).2.1.2 ⟨by decide, by decide⟩,
   ((componentDidUpdate_fetch constructorState
      { listingProps 25 (some 1) false with category := { id := some 4, entries := 5 } }
      (listingProps 25 (some 1) false)).2.2.2.1 rfl rfl rfl).2.1⟩

/-! ## C9: clearing the filters -/

/-- C9: after `clearFilters` the query holds exactly `sortKey`, `sortDirection`
and `page`: the sort key and direction of the component state, and the page of
the URL before the call (1 if absent); `customFilters`, `priceMin`, `priceMax`
and any other parameter are gone. For the URL
`?customFilters=color:red,blue;size:m&page=3&sortKey=price&sortDirection=DESC`,
once the component has requested that URL's category, the result is
`?sortKey=price&sortDirection=DESC&page=3`. -/
theorem clearFilters_query :
    (∀ (st : State) (location : Location) (history : Query),
      clearFilters st location history =
        { page := some (location.query.page.getD 1)
          sortKey := some st.sortKey
          sortDirection := some st.sortDirection
          priceMin := none
          priceMax := none
          customFilters := none
          other := [] }) ∧
    (∃ st options,
      requestCategory constructorState
          { listingProps 25 none false with location := filteredLocation } = some (st, options) ∧
      clearFilters st filteredLocation filteredLocation.query =
        { page := some 3
          sortKey := some (ascii "price")
          sortDirection := some (ascii "DESC")
          priceMin := none
          priceMax := none
          customFilters := none
          other := [] }) := by
  refine ⟨fun st location history => rfl, ?_⟩
  refine ⟨_, _, rfl, ?_⟩
  decide

/-! ## C10: sort and page state of a request -/

/-- C10 as stated fails at `?customFilters=abc`: `getCustomFiltersFromUrl`
throws inside `requestCategory`, so no options are sent and no state update is
applied. -/
theorem requestCategory_malformed :
    requestCategory constructorState malformedProps = none ∧
    ¬ SendsSortAndPage constructorState malformedProps := by
  have h : requestCategory constructorState malformedProps = none := by decide
  refine ⟨h, ?_⟩
  rintro ⟨st', options, hreq, _⟩
  rw [h] at hreq
  cases hreq

/-- C10, amended: whenever the `customFilters` parameter of the URL is absent
or decodes without error, `requestCategory` sends options whose `sortKey`
(resp. `sortDirection`) is the URL's value when the URL has a non-empty one and
the state's otherwise, and whose `previousPage` is the state's before the call;
the state update sets `previousPage` to the URL page (1 if absent), sets a sort
field to the URL's value exactly when the URL has one, and leaves every other
state field unchanged. -/
theorem requestCategory_sort_and_page (st : State) (props : Props) (customFilters : Filters)
    (hdecode : getCustomFiltersFromUrl props.location.query.customFilters = some customFilters) :
    SendsSortAndPage st props := by
  unfold SendsSortAndPage
  refine ⟨setState st (requestStateUpdate props.location),
    { categoryUrlPath := if props.categoryIds = 0 then some props.urlPath else none
      currentPage := props.location.query.page.getD 1
      previousPage := st.previousPage
      pageSize := st.pageSize
      priceRange := getPriceRangeFromUrl st props.location
      customFilters := customFilters
      categoryIds := props.categoryIds
      sortKey := orElse props.location.query.sortKey st.sortKey
      sortDirection := orElse props.location.query.sortDirection st.sortDirection
      productsLoaded := props.items
      getConfigurableData := true
      isCategoryLoaded := decide (props.category.entries ≠ 0) },
    by simp only [requestCategory, hdecode], ?_, ?_, ?_, ?_, rfl, rfl, rfl, rfl, rfl, rfl⟩
  · intro s hs hne
    obtain ⟨c, cs, rfl⟩ := List.exists_cons_of_ne_nil hne
    simp [hs, orElse, setState, requestStateUpdate, truthy]
  · rintro (hs | hs) <;> simp [hs, orElse, setState, requestStateUpdate, truthy]
  · intro s hs hne
    obtain ⟨c, cs, rfl⟩ := List.exists_cons_of_ne_nil hne
    simp [hs, orElse, setState, requestStateUpdate, truthy]
  · rintro (hs | hs) <;> simp [hs, orElse, setState, requestStateUpdate, truthy]

/-- C10 (amended) at the URL
`?customFilters=color:red,blue;size:m&page=3&sortKey=price&sortDirection=DESC`. -/
theorem requestCategory_sort_and_page_witness :
    SendsSortAndPage constructorState
      { listingProps 25 none false with location := filteredLocation } :=
  requestCategory_sort_and_page constructorState
    { listingProps 25 none false with location := filteredLocation }
    [(ascii "color", [ascii "red", ascii "blue"]), (ascii "size", [ascii "m"])]
    (by decide)

end CategoryPage
